import Mathlib

/-!
# Solduino: verification of the transaction/message core

A shallow embedding, in Lean 4, of the solduino library's message builder
(`src/transaction.cpp`), wire serializer (`src/serializer.cpp`) and the
self-contained signing engine (`src/src/tweetnacl.c`), together with proofs
and refutations of the specified properties.

Conventions of the embedding:
* byte sequences (`uint8_t*` buffers, 32-byte keys, 64-byte signatures) are
  `List Nat` whose elements are byte values;
* C integer narrowing is explicit: `toInt8` models storing a value into an
  `int8_t`, `intToU8` models storing an `int8_t`/`int` into a `uint8_t`,
  and counter increments on `uint8_t` fields are taken `% 256`;
* in-place mutation becomes state passing: each member function returns its
  result together with the new object value;
* external collaborators (the SHA-512 primitive and the libsodium-backed
  `signMessage`) are parameters of the functions that consume them.
-/

set_option maxRecDepth 10000

/-- `MAX_ACCOUNTS` from `transaction.h`. -/
def MAX_ACCOUNTS : Nat := 16

/-- `MAX_INSTRUCTIONS` from `transaction.h`. -/
def MAX_INSTRUCTIONS : Nat := 8

/-- `MAX_INSTRUCTION_DATA` from `transaction.h`. -/
def MAX_INSTRUCTION_DATA : Nat := 256

/-- Storing a `uint8_t` value into an `int8_t` variable (two's complement
narrowing, the behaviour of the compilers this library targets). -/
def toInt8 (x : Nat) : Int :=
  if x % 256 < 128 then (x % 256 : Int) else (x % 256 : Int) - 256

/-- Storing an `int` value into a `uint8_t` variable (reduction mod 256). -/
def intToU8 (x : Int) : Nat := (x % 256).toNat

/-- The all-zero 32-byte system-program id (`systemProgramId` in
`Transaction::addTransferInstruction`). -/
def zero32 : List Nat := List.replicate 32 0

/-- The 8 little-endian bytes of a `uint64_t` amount. -/
def le8 (amount : Nat) : List Nat :=
  (List.range 8).map (fun i => (amount >>> (8 * i)) % 256)

/-- Insertion at a given index of a list, modelling the shift-right-and-store
loop of `Message::addAccount` (indices past the end append, a case the
capacity check makes unreachable there). -/
def insertAt (n : Nat) (a : α) : List α → List α
  | [] => [a]
  | x :: xs =>
    match n with
    | 0 => a :: x :: xs
    | n + 1 => x :: insertAt n a xs

/-- `TransactionHeader` from `transaction.h`: three `uint8_t` counters. -/
structure TransactionHeader where
  numRequiredSignatures : Nat
  numReadonlySignedAccounts : Nat
  numReadonlyUnsignedAccounts : Nat
deriving Repr, DecidableEq

/-- One slot of the account table.  The C code stores only the 32-byte key
(`accountKeys[i]`); `isSigner`/`isWritable` are ghost fields recording the
role with which the key was first inserted, so that the ordering invariant
can be stated. -/
structure AccountEntry where
  key : List Nat
  isSigner : Bool
  isWritable : Bool
deriving Repr, DecidableEq

/-- `CompiledInstruction` from `transaction.h` (`accountCount` and
`dataLength` are the lengths of the two lists). -/
structure CompiledInstruction where
  programIdIndex : Nat
  accountIndices : List Nat
  data : List Nat
deriving Repr, DecidableEq

/-- `Message` from `transaction.h` (`accountCount` and `instructionCount` are
the lengths of the two lists). -/
structure Message where
  header : TransactionHeader
  accounts : List AccountEntry
  recentBlockhash : List Nat
  instructions : List CompiledInstruction
deriving Repr, DecidableEq

/-- The state established by `Message::Message()` / `Message::reset()`:
all counters zero, no accounts, all-zero blockhash, no instructions. -/
def emptyMessage : Message :=
  { header := ⟨0, 0, 0⟩
    accounts := []
    recentBlockhash := List.replicate 32 0
    instructions := [] }

/-- `Message::reset` (identical to the constructor). -/
def Message.reset (_ : Message) : Message := emptyMessage

/-- The scan loop of `Message::findAccountIndex`, counting from `i`. -/
def findIdxFrom (pubkey : List Nat) : Nat → List AccountEntry → Nat
  | _, [] => 255
  | i, e :: rest =>
    if e.key == pubkey then i else findIdxFrom pubkey (i + 1) rest

/-- `Message::findAccountIndex`: linear scan of the key table (a 32-byte
`memcmp` per entry), 255 when the key is absent (the `!pubkey` null check
is outside the model). -/
def Message.findAccountIndex (m : Message) (pubkey : List Nat) : Nat :=
  findIdxFrom pubkey 0 m.accounts

/-- The insertion-point computation of `Message::addAccount` (lines 51-71 of
`transaction.cpp`): the counter differences are computed in `int` and stored
into a `uint8_t`, hence `intToU8`. -/
def Message.insertIndexFor (m : Message) (isSigner isWritable : Bool) : Nat :=
  if isSigner then
    if isWritable then
      intToU8 ((m.header.numRequiredSignatures : Int) -
        m.header.numReadonlySignedAccounts)
    else m.header.numRequiredSignatures
  else
    if isWritable then
      intToU8 ((m.accounts.length : Int) - m.header.numReadonlyUnsignedAccounts)
    else m.accounts.length

/-- The counter update of `Message::addAccount` (lines 84-94): increments of
`uint8_t` fields, hence `% 256`. -/
def TransactionHeader.bump (h : TransactionHeader) (isSigner isWritable : Bool) :
    TransactionHeader :=
  if isSigner then
    { h with
      numRequiredSignatures := (h.numRequiredSignatures + 1) % 256
      numReadonlySignedAccounts :=
        if isWritable then h.numReadonlySignedAccounts
        else (h.numReadonlySignedAccounts + 1) % 256 }
  else
    if isWritable then h
    else { h with
           numReadonlyUnsignedAccounts := (h.numReadonlyUnsignedAccounts + 1) % 256 }

/-- `Message::addAccount`.  Returns the `int8_t` result (table index, or -1
on capacity failure) together with the new message. -/
def Message.addAccount (m : Message) (pubkey : List Nat)
    (isSigner isWritable : Bool) : Int × Message :=
  if m.accounts.length ≥ MAX_ACCOUNTS then (-1, m)
  else
    let existingIndex := m.findAccountIndex pubkey
    if existingIndex ≠ 255 then ((existingIndex : Int), m)
    else
      let insertIndex := m.insertIndexFor isSigner isWritable
      ((insertIndex : Int),
       { m with
         header := m.header.bump isSigner isWritable
         accounts := insertAt insertIndex ⟨pubkey, isSigner, isWritable⟩ m.accounts })

/-- `Message::setRecentBlockhash` (non-null argument assumed). -/
def Message.setRecentBlockhash (m : Message) (blockhash : List Nat) : Message :=
  { m with recentBlockhash := blockhash }

/-- The account-resolution loop of `Message::addInstruction`.  The source
stores `findAccountIndex`'s `uint8_t` result in an `int8_t` and compares it
with 255: an `int8_t` is never 255, so the not-found test is dead and the
sentinel narrows to 255 when stored into the `uint8_t` index slot. -/
def Message.resolveIndices (m : Message) : List (List Nat) → Option (List Nat)
  | [] => some []
  | a :: rest =>
    let accountIndex : Int := toInt8 (m.findAccountIndex a)
    if accountIndex = 255 then none
    else
      match m.resolveIndices rest with
      | some is => some (intToU8 accountIndex :: is)
      | none => none

/-- `Message::addInstruction`.  Mirrors the source's control flow, including
the dead `== 255` comparisons on `int8_t` values (see `resolveIndices`): an
absent program id is therefore never added and compiles to index 255. -/
def Message.addInstruction (m : Message) (programId : List Nat)
    (accountsArg : List (List Nat)) (data : List Nat) : Bool × Message :=
  if m.instructions.length ≥ MAX_INSTRUCTIONS then (false, m)
  else if data.length > MAX_INSTRUCTION_DATA then (false, m)
  else
    let pIdx0 : Int := toInt8 (m.findAccountIndex programId)
    let step : Option (Int × Message) :=
      if pIdx0 = 255 then
        let r := m.addAccount programId false false
        if r.1 < 0 then none else some r
      else some (pIdx0, m)
    match step with
    | none => (false, m)
    | some (pIdx, m1) =>
      match m1.resolveIndices (accountsArg.take MAX_ACCOUNTS) with
      | none => (false, m1)
      | some idxs =>
        (true,
         { m1 with
           instructions := m1.instructions ++ [⟨intToU8 pIdx, idxs, data⟩] })

example : (emptyMessage.addAccount (List.replicate 32 7) true true).1 = 0 := by decide

example :
    ((emptyMessage.addAccount (List.replicate 32 7) true true).2.addAccount
      (List.replicate 32 7) false false).1 = 0 := by decide

/-!
## WireCodec (`src/serializer.cpp`)

A buffer being written is the list of bytes emitted so far (its length is
the C `offset`); every writer takes the buffer and `maxLen` and returns
`some` of the extended buffer, or `none` where the C function returns
`false` (partial writes before a bounds failure are discarded, which is
adequate because the failing C functions' callers discard the buffer). -/

/-- The do-while loop of `TransactionSerializer::writeCompactU16`.  The
first argument is fuel, set by the wrapper to more than the bytes that can
still fit, so exhaustion is unreachable: each iteration either fails the
bounds check or lengthens the buffer. -/
def writeCompactU16Go : Nat → List Nat → Nat → Nat → Option (List Nat)
  | 0, _, _, _ => none
  | fuel + 1, buf, maxLen, value =>
    if buf.length ≥ maxLen then none
    else
      let lowBits := value % 128
      let value' := value / 128
      let byte := if value' ≠ 0 then lowBits + 128 else lowBits
      let buf' := buf ++ [byte]
      if value' = 0 then some buf' else writeCompactU16Go fuel buf' maxLen value'

/-- `TransactionSerializer::writeCompactU16`. -/
def writeCompactU16 (buf : List Nat) (maxLen value : Nat) : Option (List Nat) :=
  writeCompactU16Go (maxLen + 1 - buf.length) buf maxLen value

/-- `TransactionSerializer::serializeHeader`: three raw counter bytes. -/
def serializeHeader (buf : List Nat) (maxLen : Nat) (h : TransactionHeader) :
    Option (List Nat) :=
  if buf.length + 3 > maxLen then none
  else some (buf ++ [h.numRequiredSignatures, h.numReadonlySignedAccounts,
                     h.numReadonlyUnsignedAccounts])

/-- `TransactionSerializer::serializeAccountKeys`: compact-u16 count then
each 32-byte key (the C `memcpy` copies exactly the 32 key bytes; keys in
this model are 32-element lists). -/
def serializeAccountKeys (buf : List Nat) (maxLen : Nat) (keys : List (List Nat)) :
    Option (List Nat) :=
  if buf.length + 1 ≥ maxLen then none
  else
    match writeCompactU16 buf maxLen keys.length with
    | none => none
    | some buf1 =>
      keys.foldl
        (fun acc k =>
          match acc with
          | none => none
          | some b => if b.length + 32 > maxLen then none else some (b ++ k))
        (some buf1)

/-- `TransactionSerializer::serializeBlockhash`: 32 raw bytes. -/
def serializeBlockhash (buf : List Nat) (maxLen : Nat) (blockhash : List Nat) :
    Option (List Nat) :=
  if buf.length + 32 > maxLen then none else some (buf ++ blockhash)

/-- `TransactionSerializer::serializeInstruction`. -/
def serializeInstruction (buf : List Nat) (maxLen : Nat)
    (inst : CompiledInstruction) : Option (List Nat) :=
  if buf.length + 1 ≥ maxLen then none
  else
    let buf0 := buf ++ [inst.programIdIndex]
    match writeCompactU16 buf0 maxLen inst.accountIndices.length with
    | none => none
    | some buf1 =>
      if buf1.length + inst.accountIndices.length > maxLen then none
      else
        let buf2 := buf1 ++ inst.accountIndices
        match writeCompactU16 buf2 maxLen inst.data.length with
        | none => none
        | some buf3 =>
          if buf3.length + inst.data.length > maxLen then none
          else some (buf3 ++ inst.data)

/-- `TransactionSerializer::serializeInstructions`. -/
def serializeInstructions (buf : List Nat) (maxLen : Nat)
    (insts : List CompiledInstruction) : Option (List Nat) :=
  if buf.length + 1 ≥ maxLen then none
  else
    match writeCompactU16 buf maxLen insts.length with
    | none => none
    | some buf1 =>
      insts.foldl
        (fun acc inst =>
          match acc with
          | none => none
          | some b => serializeInstruction b maxLen inst)
        (some buf1)

/-- `TransactionSerializer::serializeMessage`: header ‖ account keys ‖
blockhash ‖ instructions (the intermediate `getAccount` copy loop of the
source reproduces the stored keys unchanged). -/
def serializeMessage (m : Message) (bufferLen : Nat) : Option (List Nat) :=
  if bufferLen = 0 then none
  else
    match serializeHeader [] bufferLen m.header with
    | none => none
    | some b1 =>
      match serializeAccountKeys b1 bufferLen (m.accounts.map (·.key)) with
      | none => none
      | some b2 =>
        match serializeBlockhash b2 bufferLen m.recentBlockhash with
        | none => none
        | some b3 => serializeInstructions b3 bufferLen m.instructions

/-- The spec's description of the shortvec encoding, as a pure function:
7 low bits per byte, low group first, continuation bit 0x80 on every byte
but the last, at least one byte. -/
def compactU16Spec (value : Nat) : List Nat :=
  if h : value < 128 then [value]
  else (value % 128 + 128) :: compactU16Spec (value / 128)
decreasing_by
  exact Nat.div_lt_self (Nat.lt_of_lt_of_le (by norm_num) (Nat.le_of_not_lt h)) (by norm_num)

/-- Modelled from the spec: the repository contains no shortvec decoder
(`writeCompactU16` has no reading counterpart in the sources), so the
decoder that the round-trip property of §8 refers to is taken from the
spec's words: strip the 0x80 continuation bit, accumulate 7-bit groups
little-endian first, and require the final byte to have the bit clear. -/
def decodeCompactU16 : List Nat → Option Nat
  | [] => none
  | b :: rest =>
    if b < 128 then
      if rest.isEmpty then some b else none
    else
      match decodeCompactU16 rest with
      | some v => some ((b - 128) + 128 * v)
      | none => none

example : writeCompactU16 [] 10 0 = some [0] := by decide
example : writeCompactU16 [] 10 16384 = some [128, 128, 1] := by decide
example : decodeCompactU16 [128, 128, 1] = some 16384 := by decide

/-!
## TransactionAssembler (`src/transaction.cpp`, class `Transaction`)

The libsodium-backed `signMessage` of `src/crypto.cpp` is an external
collaborator; `Transaction.sign` takes it as the parameter `signFn`
(private key and serialized message in, optionally a 64-byte detached
signature out). -/

/-- `Transaction` from `transaction.h`: 16 signature slots of 64 bytes, a
count, one owned message, and the validity flag. -/
structure Transaction where
  signatures : List (List Nat)
  signatureCount : Nat
  message : Message
  isValid : Bool
deriving Repr, DecidableEq

/-- `Transaction::Transaction()`: zeroed signature slots, empty message. -/
def emptyTransaction : Transaction :=
  { signatures := List.replicate MAX_ACCOUNTS (List.replicate 64 0)
    signatureCount := 0
    message := emptyMessage
    isValid := false }

/-- The 12-byte system-program transfer payload built in
`Transaction::addTransferInstruction`: u32-LE discriminator 2, u64-LE
amount. -/
def transferInstructionData (amount : Nat) : List Nat :=
  [2, 0, 0, 0] ++ le8 amount

/-- `Transaction::addTransferInstruction` (null-pointer checks on the two
keys are outside the model).  The owned message is reset first, then the
three canonical accounts are registered and the single transfer instruction
appended. -/
def Transaction.addTransferInstruction (tx : Transaction)
    (fromKey toKey : List Nat) (amount : Nat) : Bool × Transaction :=
  let m0 := tx.message.reset
  let r1 := m0.addAccount fromKey true true
  if r1.1 < 0 then (false, { tx with message := r1.2 })
  else
    let r2 := r1.2.addAccount toKey false true
    if r2.1 < 0 then (false, { tx with message := r2.2 })
    else
      let r3 := r2.2.addAccount zero32 false false
      if r3.1 < 0 then (false, { tx with message := r3.2 })
      else
        let r4 := r3.2.addInstruction zero32 [fromKey, toKey]
          (transferInstructionData amount)
        (r4.1, { tx with message := r4.2 })

/-- `Transaction::setRecentBlockhash`. -/
def Transaction.setRecentBlockhash (tx : Transaction) (blockhash : List Nat) :
    Transaction :=
  { tx with message := tx.message.setRecentBlockhash blockhash }

/-- The signer-resolution prologue of `Transaction::sign` (lines 256-265):
look the public key up; when absent, add it as a writable signer.  The
source stores `addAccount`'s `int8_t` result into the `uint8_t`
`signerIndex`, so a -1 capacity failure reads back as 255 and fails the
call with the message unchanged (`addAccount` does not mutate on
failure). -/
def Transaction.signResolve (tx : Transaction) (publicKey : List Nat) :
    Option (Nat × Message) :=
  let found := tx.message.findAccountIndex publicKey
  if found = 255 then
    let r := tx.message.addAccount publicKey true true
    let signerIndex := intToU8 r.1
    if signerIndex = 255 then none else some (signerIndex, r.2)
  else some (found, tx.message)

/-- `Transaction::sign`.  `signFn` models the external `signMessage`.
After `signResolve`, the signer zone check fires, the message is serialized
into a 2048-byte buffer and signed; on success `signatureCount` is set,
every slot is zeroed and the fresh signature stored at the signer's index.
The source assigns `signatureCount` before its (unreachable) zero check, so
that mutation is kept on that path. -/
def Transaction.sign (signFn : List Nat → List Nat → Option (List Nat))
    (tx : Transaction) (privateKey publicKey : List Nat) : Bool × Transaction :=
  match tx.signResolve publicKey with
  | none => (false, tx)
  | some (signerIndex, m') =>
    let header := m'.header
    if signerIndex ≥ header.numRequiredSignatures then
      (false, { tx with message := m' })
    else if signerIndex ≠ 0 ∧ signerIndex ≥ header.numRequiredSignatures then
      (false, { tx with message := m' })
    else
      match serializeMessage m' 2048 with
      | none => (false, { tx with message := m' })
      | some messageBytes =>
        match signFn privateKey messageBytes with
        | none => (false, { tx with message := m' })
        | some signature =>
          let signatureCount := header.numRequiredSignatures
          if signatureCount = 0 then
            (false, { tx with message := m', signatureCount := signatureCount })
          else if signerIndex < signatureCount then
            (true,
             { tx with
               message := m'
               signatureCount := signatureCount
               signatures :=
                 (List.replicate MAX_ACCOUNTS (List.replicate 64 0)).set
                   signerIndex signature
               isValid := true })
          else
            (false, { tx with message := m', signatureCount := signatureCount })

/-- `Transaction::signMultiple` (null-pointer checks on the two arrays are
outside the model; `count == 0` fails up front).  Every pair is attempted
in order; failures only clear the accumulated flag. -/
def Transaction.signMultiple (signFn : List Nat → List Nat → Option (List Nat))
    (tx : Transaction) (pairs : List (List Nat × List Nat)) : Bool × Transaction :=
  if pairs.isEmpty then (false, tx)
  else
    pairs.foldl
      (fun acc pair =>
        let r := Transaction.sign signFn acc.2 pair.1 pair.2
        (acc.1 && r.1, r.2))
      (true, tx)

/-- `Transaction::reset`. -/
def Transaction.reset (_ : Transaction) : Transaction := emptyTransaction

example :
    (emptyTransaction.addTransferInstruction (List.replicate 32 1)
      (List.replicate 32 2) 100).1 = true := by decide

example :
    ((emptyTransaction.addTransferInstruction (List.replicate 32 1)
      (List.replicate 32 2) 100).2.message.accounts.map (·.key)) =
      [List.replicate 32 1, List.replicate 32 2, zero32] := by decide

/-!
## The four-zone account-ordering invariant (§3 of the spec, claim C4) -/

/-- The account table is partitioned front-to-back into writable signers,
readonly signers, writable non-signers and readonly non-signers, and the
three header counters agree with the partition (`numRequiredSignatures` =
signers, `numReadonlySignedAccounts` = readonly signers,
`numReadonlyUnsignedAccounts` = readonly non-signers). -/
def fourZone (m : Message) : Prop :=
  ∃ z1 z2 z3 z4 : List AccountEntry,
    m.accounts = z1 ++ z2 ++ z3 ++ z4 ∧
    (∀ e ∈ z1, e.isSigner = true ∧ e.isWritable = true) ∧
    (∀ e ∈ z2, e.isSigner = true ∧ e.isWritable = false) ∧
    (∀ e ∈ z3, e.isSigner = false ∧ e.isWritable = true) ∧
    (∀ e ∈ z4, e.isSigner = false ∧ e.isWritable = false) ∧
    m.header.numRequiredSignatures = z1.length + z2.length ∧
    m.header.numReadonlySignedAccounts = z2.length ∧
    m.header.numReadonlyUnsignedAccounts = z4.length

theorem insertAt_length_append (l1 l2 : List α) (a : α) :
    insertAt l1.length a (l1 ++ l2) = l1 ++ a :: l2 := by
  induction l1 with
  | nil => cases l2 <;> rfl
  | cons x xs ih => simpa [insertAt] using ih

theorem insertAt_length (n : Nat) (a : α) (l : List α) :
    (insertAt n a l).length = l.length + 1 := by
  induction l generalizing n with
  | nil => simp [insertAt]
  | cons x xs ih =>
    cases n with
    | zero => rfl
    | succ n => simp [insertAt, ih]

theorem intToU8_sub (a b : Nat) (hba : b ≤ a) (ha : a < 256) :
    intToU8 ((a : Int) - b) = a - b := by
  unfold intToU8
  rw [Int.emod_eq_of_lt (by omega) (by omega)]
  omega

/-- Unfolding of `addAccount` on a fresh key with room in the table. -/
theorem addAccount_new (m : Message) (k : List Nat) (s w : Bool)
    (hcap : ¬ m.accounts.length ≥ MAX_ACCOUNTS) (habs : m.findAccountIndex k = 255) :
    m.addAccount k s w =
      (((m.insertIndexFor s w : Nat) : Int),
       { m with
         header := m.header.bump s w
         accounts := insertAt (m.insertIndexFor s w) ⟨k, s, w⟩ m.accounts }) := by
  simp [Message.addAccount, hcap, habs]

/-- One `addAccount` call preserves the four-zone invariant (and the
capacity bound that keeps the `uint8_t` counters below 256). -/
theorem addAccount_fourZone_step (m : Message) (k : List Nat) (s w : Bool)
    (h : fourZone m) (hlen : m.accounts.length ≤ MAX_ACCOUNTS) :
    fourZone (m.addAccount k s w).2 ∧
      (m.addAccount k s w).2.accounts.length ≤ MAX_ACCOUNTS := by
  obtain ⟨z1, z2, z3, z4, hacc, h1, h2, h3, h4, hn1, hn2, hn3⟩ := h
  have hsplit : fourZone m ∧ m.accounts.length ≤ MAX_ACCOUNTS :=
    ⟨⟨z1, z2, z3, z4, hacc, h1, h2, h3, h4, hn1, hn2, hn3⟩, hlen⟩
  by_cases hcap : m.accounts.length ≥ MAX_ACCOUNTS
  · simpa [Message.addAccount, hcap] using hsplit
  by_cases habs : m.findAccountIndex k = 255
  case neg =>
    simpa [Message.addAccount, hcap, habs] using hsplit
  rw [addAccount_new m k s w hcap habs]
  have hlt16 : m.accounts.length < 16 := by
    unfold MAX_ACCOUNTS at hcap; omega
  have hz' : z1.length + z2.length + z3.length + z4.length < 16 := by
    have h' : m.accounts.length < 16 := hlt16
    rw [hacc] at h'
    simp only [List.length_append] at h'
    omega
  dsimp only
  refine ⟨?_, by rw [insertAt_length]; unfold MAX_ACCOUNTS; omega⟩
  · have hlenacc : m.accounts.length =
        z1.length + z2.length + z3.length + z4.length := by
      rw [hacc]; simp [List.length_append]; omega
    cases s <;> cases w
    -- s = false, w = false: readonly non-signer appended at the end
    · have hidx : m.insertIndexFor false false = m.accounts.length := by
        simp [Message.insertIndexFor]
      have hre : m.accounts = (z1 ++ z2 ++ z3 ++ z4) ++ [] := by
        rw [hacc]; simp
      have hidx2 : m.accounts.length = (z1 ++ z2 ++ z3 ++ z4).length := by
        rw [hacc]
      have hins := insertAt_length_append (z1 ++ z2 ++ z3 ++ z4) []
        (⟨k, false, false⟩ : AccountEntry)
      refine ⟨z1, z2, z3, z4 ++ [⟨k, false, false⟩], ?_, h1, h2, h3, ?_, ?_, ?_, ?_⟩
      · rw [hidx, hidx2]
        conv => lhs; rw [hre]
        rw [hins]; simp
      · intro e he
        rcases List.mem_append.mp he with he | he
        · exact h4 e he
        · simp only [List.mem_singleton] at he; subst he; exact ⟨rfl, rfl⟩
      · simpa [TransactionHeader.bump] using hn1
      · simpa [TransactionHeader.bump] using hn2
      · simp [TransactionHeader.bump, hn3]
        omega
    -- s = false, w = true: writable non-signer, before readonly non-signers
    · have hidx : m.insertIndexFor false true = (z1 ++ z2 ++ z3).length := by
        simp only [Message.insertIndexFor, Bool.false_eq_true, if_false, if_true,
          ite_true, ite_false, hn3]
        rw [hlenacc, intToU8_sub _ _ (by omega) (by omega)]
        simp [List.length_append]; omega
      have hins := insertAt_length_append (z1 ++ z2 ++ z3) z4
        (⟨k, false, true⟩ : AccountEntry)
      refine ⟨z1, z2, z3 ++ [⟨k, false, true⟩], z4, ?_, h1, h2, ?_, h4, ?_, ?_, ?_⟩
      · rw [hidx]
        conv => lhs; rw [hacc]
        rw [hins]; simp
      · intro e he
        rcases List.mem_append.mp he with he | he
        · exact h3 e he
        · simp only [List.mem_singleton] at he; subst he; exact ⟨rfl, rfl⟩
      · simpa [TransactionHeader.bump] using hn1
      · simpa [TransactionHeader.bump] using hn2
      · simpa [TransactionHeader.bump] using hn3
    -- s = true, w = false: readonly signer, after all signers
    · have hidx : m.insertIndexFor true false = (z1 ++ z2).length := by
        simp [Message.insertIndexFor, hn1, List.length_append]
      have hre : m.accounts = (z1 ++ z2) ++ (z3 ++ z4) := by
        rw [hacc]; simp
      have hins := insertAt_length_append (z1 ++ z2) (z3 ++ z4)
        (⟨k, true, false⟩ : AccountEntry)
      refine ⟨z1, z2 ++ [⟨k, true, false⟩], z3, z4, ?_, h1, ?_, h3, h4, ?_, ?_, ?_⟩
      · rw [hidx]
        conv => lhs; rw [hre]
        rw [hins]; simp
      · intro e he
        rcases List.mem_append.mp he with he | he
        · exact h2 e he
        · simp only [List.mem_singleton] at he; subst he; exact ⟨rfl, rfl⟩
      · simp [TransactionHeader.bump, hn1]
        omega
      · simp [TransactionHeader.bump, hn2]
        omega
      · simpa [TransactionHeader.bump] using hn3
    -- s = true, w = true: writable signer, after existing writable signers
    · have hidx : m.insertIndexFor true true = z1.length := by
        simp only [Message.insertIndexFor, ite_true, hn1, hn2]
        rw [intToU8_sub _ _ (by omega) (by omega)]
        omega
      have hre : m.accounts = z1 ++ (z2 ++ z3 ++ z4) := by
        rw [hacc]; simp
      have hins := insertAt_length_append z1 (z2 ++ z3 ++ z4)
        (⟨k, true, true⟩ : AccountEntry)
      refine ⟨z1 ++ [⟨k, true, true⟩], z2, z3, z4, ?_, ?_, h2, h3, h4, ?_, ?_, ?_⟩
      · rw [hidx]
        conv => lhs; rw [hre]
        rw [hins]; simp
      · intro e he
        rcases List.mem_append.mp he with he | he
        · exact h1 e he
        · simp only [List.mem_singleton] at he; subst he; exact ⟨rfl, rfl⟩
      · simp [TransactionHeader.bump, hn1]
        omega
      · simpa [TransactionHeader.bump] using hn2
      · simpa [TransactionHeader.bump] using hn3

/-- A 32-byte key whose bytes all equal `b` (concrete test keys). -/
def kbyte (b : Nat) : List Nat := List.replicate 32 b

/-- Fold a sequence of `addAccount` calls (key, isSigner, isWritable) over a
message, keeping only the state (the C caller may also ignore the returned
index). -/
def applyAddAccounts (ops : List (List Nat × Bool × Bool)) (m : Message) : Message :=
  ops.foldl (fun acc op => (acc.addAccount op.1 op.2.1 op.2.2).2) m

theorem emptyMessage_fourZone :
    fourZone emptyMessage ∧ emptyMessage.accounts.length ≤ MAX_ACCOUNTS := by
  refine ⟨⟨[], [], [], [], by simp [emptyMessage], by simp, by simp, by simp,
    by simp, rfl, rfl, rfl⟩, by simp [emptyMessage, MAX_ACCOUNTS]⟩

theorem applyAddAccounts_inv (ops : List (List Nat × Bool × Bool)) :
    ∀ m : Message, fourZone m → m.accounts.length ≤ MAX_ACCOUNTS →
      fourZone (applyAddAccounts ops m) ∧
        (applyAddAccounts ops m).accounts.length ≤ MAX_ACCOUNTS := by
  induction ops with
  | nil => intro m h hl; exact ⟨h, hl⟩
  | cons op rest ih =>
    intro m h hl
    have step := addAccount_fourZone_step m op.1 op.2.1 op.2.2 h hl
    simpa [applyAddAccounts, List.foldl] using ih _ step.1 step.2

/-- **C4** (confirmed).  After every sequence of `addAccount` calls starting
from the empty message, the account table is partitioned front-to-back into
the four zones writable signers, readonly signers, writable non-signers,
readonly non-signers — every entry's recorded `isSigner`/`isWritable` role
matching its zone — and `numRequiredSignatures`,
`numReadonlySignedAccounts`, `numReadonlyUnsignedAccounts` equal the zone
sizes they name.  (The statement covers arbitrary sequences, so in
particular every sequence of successful calls: failed calls leave the state
unchanged.) -/
theorem addAccount_preserves_fourZone (ops : List (List Nat × Bool × Bool)) :
    fourZone (applyAddAccounts ops emptyMessage) :=
  (applyAddAccounts_inv ops emptyMessage emptyMessage_fourZone.1
    emptyMessage_fourZone.2).1

/-- **C9** (corrected: the claim fails on a full table).  Re-adding a key
that is already present returns its existing index and leaves the whole
message — in particular `accountCount` and the header counters — unchanged,
provided the table is not at capacity.  (With a full 16-entry table the
capacity check fires before the duplicate lookup and `addAccount` returns
-1 even for a present key; see the counterexample.) -/
theorem addAccount_idempotent (m : Message) (k : List Nat) (s w : Bool)
    (hfound : m.findAccountIndex k ≠ 255)
    (hroom : m.accounts.length < MAX_ACCOUNTS) :
    m.addAccount k s w = (((m.findAccountIndex k : Nat) : Int), m) := by
  simp [Message.addAccount, hfound,
    show ¬ m.accounts.length ≥ MAX_ACCOUNTS from by omega]

/-- Witness for `addAccount_idempotent`: re-adding a present key (with
different roles) on a 1-entry table returns index 0 and the unchanged
message. -/
theorem addAccount_idempotent_witness :
    ((emptyMessage.addAccount (kbyte 7) true true).2.addAccount
        (kbyte 7) false false) =
      ((((emptyMessage.addAccount (kbyte 7) true true).2.findAccountIndex
          (kbyte 7) : Nat) : Int),
        (emptyMessage.addAccount (kbyte 7) true true).2) :=
  addAccount_idempotent _ _ false false (by decide) (by decide)

/-- Counterexample to **C9** as stated: after 16 successful `addAccount`
calls the table is full; re-adding the very first key — which sits at
index 0 — returns the failure sentinel -1, not the stored index. -/
theorem addAccount_idempotent_counterexample :
    (applyAddAccounts ((List.range 16).map (fun i => (kbyte i, false, false)))
        emptyMessage).findAccountIndex (kbyte 0) = 0 ∧
    ((applyAddAccounts ((List.range 16).map (fun i => (kbyte i, false, false)))
        emptyMessage).addAccount (kbyte 0) false false).1 = -1 := by decide

/-- **C2** (code bug).  `findAccountIndex` returns the `uint8_t` sentinel
255 for a missing account, but `addInstruction` stores it into an `int8_t`
(value -1) and compares with 255, which never holds; instead of failing,
the call succeeds and compiles the account index as 255.  Here the program
id is registered, the single listed account is not: the call returns true,
appends one instruction with account indices [255], and the spec's claimed
failure never happens. -/
theorem addInstruction_missing_account_bug :
    ((emptyMessage.addAccount (kbyte 9) false false).2.findAccountIndex
        (kbyte 8) = 255) ∧
    (((emptyMessage.addAccount (kbyte 9) false false).2.addInstruction
        (kbyte 9) [kbyte 8] []).1 = true) ∧
    (((emptyMessage.addAccount (kbyte 9) false false).2.addInstruction
        (kbyte 9) [kbyte 8] []).2.instructions.map
          (fun i => i.accountIndices) = [[255]]) := by decide

/-- **C5** (code bug).  For the same `int8_t`-narrowing reason, the
"add the program id if absent" branch of `addInstruction` is dead code: with
an empty table the call succeeds, the account table stays empty, and the
compiled `programIdIndex` is the narrowed sentinel 255 rather than the
index of a newly added readonly non-signer entry. -/
theorem addInstruction_program_id_bug :
    ((emptyMessage.addInstruction (kbyte 9) [] []).1 = true) ∧
    ((emptyMessage.addInstruction (kbyte 9) [] []).2.accounts = []) ∧
    ((emptyMessage.addInstruction (kbyte 9) [] []).2.instructions.map
        (fun i => i.programIdIndex) = [255]) := by decide

/-!
## The canonical transfer message (claims C1 and C7) -/

/-- The message state left behind by a successful
`Transaction::addTransferInstruction` when `from`, `to` and the all-zero
system-program id are pairwise distinct: header (1,0,1), accounts
[from (writable signer), to (writable non-signer), system (readonly
non-signer)], all-zero blockhash, and the single compiled transfer
instruction. -/
def transferMessage (A B : List Nat) (amount : Nat) : Message :=
  { header := ⟨1, 0, 1⟩
    accounts := [⟨A, true, true⟩, ⟨B, false, true⟩, ⟨zero32, false, false⟩]
    recentBlockhash := List.replicate 32 0
    instructions := [⟨2, [0, 1], transferInstructionData amount⟩] }

/-- A successful `addTransferInstruction` on pairwise-distinct keys returns
true and replaces the owned message with `transferMessage` (the reset at
the start discards whatever the message held before). -/
theorem addTransfer_result (tx : Transaction) (A B : List Nat) (amount : Nat)
    (hAB : A ≠ B) (hA0 : A ≠ zero32) (hB0 : B ≠ zero32) :
    tx.addTransferInstruction A B amount =
      (true, { tx with message := transferMessage A B amount }) := by
  have eAB : (A == B) = false := by
    simp only [beq_eq_false_iff_ne, ne_eq]; exact hAB
  have eA0 : (A == zero32) = false := by
    simp only [beq_eq_false_iff_ne, ne_eq]; exact hA0
  have eB0 : (B == zero32) = false := by
    simp only [beq_eq_false_iff_ne, ne_eq]; exact hB0
  simp [Transaction.addTransferInstruction, Message.reset, emptyMessage,
    Message.addAccount, Message.findAccountIndex, findIdxFrom,
    Message.insertIndexFor, TransactionHeader.bump, intToU8, toInt8, insertAt,
    Message.addInstruction, Message.resolveIndices, MAX_ACCOUNTS,
    MAX_INSTRUCTIONS, MAX_INSTRUCTION_DATA, transferMessage,
    transferInstructionData, le8, eAB, eA0, eB0]

/-- A value below 128 encodes as a single shortvec byte whenever one byte
of room is left. -/
theorem writeCompactU16_small (buf : List Nat) (maxLen v : Nat) (hv : v < 128)
    (h : buf.length < maxLen) :
    writeCompactU16 buf maxLen v = some (buf ++ [v]) := by
  unfold writeCompactU16
  obtain ⟨f, hf⟩ : ∃ f, maxLen + 1 - buf.length = f + 1 := ⟨maxLen - buf.length, by omega⟩
  rw [hf]
  unfold writeCompactU16Go
  have h1 : ¬ buf.length ≥ maxLen := by omega
  have h2 : v / 128 = 0 := Nat.div_eq_of_lt hv
  simp [h1, h2, Nat.mod_eq_of_lt hv]

/-- Serializing the canonical transfer message yields the documented byte
layout: header ‖ compact account count ‖ the three keys ‖ blockhash ‖
compact instruction count ‖ the one compiled instruction. -/
theorem serialize_transferMessage (A B : List Nat) (amount : Nat)
    (hAlen : A.length = 32) (hBlen : B.length = 32) :
    serializeMessage (transferMessage A B amount) 2048 =
      some ([1, 0, 1] ++ [3] ++ A ++ B ++ zero32 ++ List.replicate 32 0 ++
        [1] ++ [2] ++ [2] ++ [0, 1] ++ [12] ++ ([2, 0, 0, 0] ++ le8 amount)) := by
  have hle8 : (le8 amount).length = 8 := by simp [le8]
  simp [serializeMessage, serializeHeader, serializeAccountKeys,
    serializeBlockhash, serializeInstructions, serializeInstruction,
    writeCompactU16_small, transferMessage, transferInstructionData,
    List.length_append, hAlen, hBlen, hle8, zero32]

/-- The byte sequence the spec's end-to-end scenario claims, with header
bytes `01 00 00`. -/
def claimedTransferBytes (A B : List Nat) (amount : Nat) : List Nat :=
  [1, 0, 0] ++ [3] ++ A ++ B ++ zero32 ++ List.replicate 32 0 ++
    [1] ++ [2] ++ [2] ++ [0, 1] ++ [12] ++ ([2, 0, 0, 0] ++ le8 amount)

/-- Counterexample to **C1** as stated: for the concrete distinct keys
`kbyte 1`, `kbyte 2` and amount 100, the serialized transfer message does
not match the claimed bytes — the third header byte
(`numReadonlyUnsignedAccounts`) is 1, because the all-zero system-program
account is registered as a readonly non-signer, whereas the claim demands
`01 00 00`. -/
theorem serializeTransfer_header_counterexample :
    serializeMessage
        ((emptyTransaction.addTransferInstruction (kbyte 1) (kbyte 2) 100).2.message)
        2048 ≠
      some (claimedTransferBytes (kbyte 1) (kbyte 2) 100) := by decide

/-- **C1** (corrected: the header is `01 00 01`, not `01 00 00`).  For
pairwise distinct 32-byte keys A, B and the system-program key, building a
transfer and serializing the message yields exactly: header `01 00 01`,
compact account count 3, keys A, B, system program, the all-zero blockhash,
compact instruction count 1, then programIdIndex 2, compact account-index
count 2, indices [0, 1], compact data length 12, and data
`02 00 00 00` ‖ 8-byte little-endian amount. -/
theorem serializeTransfer_bytes (A B : List Nat) (amount : Nat)
    (hAB : A ≠ B) (hA0 : A ≠ zero32) (hB0 : B ≠ zero32)
    (hAlen : A.length = 32) (hBlen : B.length = 32) :
    serializeMessage
        ((emptyTransaction.addTransferInstruction A B amount).2.message) 2048 =
      some ([1, 0, 1] ++ [3] ++ A ++ B ++ zero32 ++ List.replicate 32 0 ++
        [1] ++ [2] ++ [2] ++ [0, 1] ++ [12] ++ ([2, 0, 0, 0] ++ le8 amount)) := by
  rw [addTransfer_result emptyTransaction A B amount hAB hA0 hB0]
  exact serialize_transferMessage A B amount hAlen hBlen

/-- Witness for `serializeTransfer_bytes` at keys `kbyte 1`, `kbyte 2`,
amount 100. -/
theorem serializeTransfer_bytes_witness :
    serializeMessage
        ((emptyTransaction.addTransferInstruction (kbyte 1) (kbyte 2) 100).2.message)
        2048 =
      some ([1, 0, 1] ++ [3] ++ kbyte 1 ++ kbyte 2 ++ zero32 ++
        List.replicate 32 0 ++ [1] ++ [2] ++ [2] ++ [0, 1] ++ [12] ++
        ([2, 0, 0, 0] ++ le8 100)) :=
  serializeTransfer_bytes (kbyte 1) (kbyte 2) 100 (by decide) (by decide)
    (by decide) (by decide) (by decide)

/-- Counterexample to **C7** as stated: with `from = to` the call still
succeeds, but the resulting message holds two accounts, not the claimed
three. -/
theorem addTransfer_same_key_counterexample :
    ((emptyTransaction.addTransferInstruction (kbyte 3) (kbyte 3) 5).1 = true) ∧
    ((emptyTransaction.addTransferInstruction (kbyte 3) (kbyte 3)
        5).2.message.accounts.length = 2) := by decide

/-- **C7** (corrected: requires `from`, `to` and the zero key pairwise
distinct).  `addTransferInstruction` resets the owned message first, so for
any prior transaction state the result is `true` together with exactly
`transferMessage`: three accounts [from, to, system program], one
instruction, and the all-zero blockhash; everything the message held before
the call is discarded (and the signature slots are untouched). -/
theorem addTransfer_resets (tx : Transaction) (A B : List Nat) (amount : Nat)
    (hAB : A ≠ B) (hA0 : A ≠ zero32) (hB0 : B ≠ zero32) :
    tx.addTransferInstruction A B amount =
      (true, { tx with message := transferMessage A B amount }) ∧
    (transferMessage A B amount).accounts.map AccountEntry.key =
      [A, B, zero32] ∧
    (transferMessage A B amount).instructions.length = 1 ∧
    (transferMessage A B amount).recentBlockhash = List.replicate 32 0 :=
  ⟨addTransfer_result tx A B amount hAB hA0 hB0, by simp [transferMessage],
    rfl, rfl⟩

/-- Witness for `addTransfer_resets`: a transaction with a non-zero
blockhash already set loses it to the reset. -/
theorem addTransfer_resets_witness :
    (emptyTransaction.setRecentBlockhash (kbyte 7)).addTransferInstruction
        (kbyte 1) (kbyte 2) 5 =
      (true, { emptyTransaction.setRecentBlockhash (kbyte 7) with
               message := transferMessage (kbyte 1) (kbyte 2) 5 }) :=
  (addTransfer_resets (emptyTransaction.setRecentBlockhash (kbyte 7))
    (kbyte 1) (kbyte 2) 5 (by decide) (by decide) (by decide)).1

theorem compactU16Spec_length_le (v : Nat) (hv : v < 65536) :
    (compactU16Spec v).length ≤ 3 := by
  rw [compactU16Spec]
  split
  · simp
  · next h1 =>
    rw [compactU16Spec]
    split
    · simp
    · next h2 =>
      rw [compactU16Spec]
      split
      · simp
      · next h3 => exact absurd (by omega : v / 128 / 128 < 128) h3

theorem compactU16Spec_length_pos (v : Nat) : 1 ≤ (compactU16Spec v).length := by
  rw [compactU16Spec]
  split <;> simp

/-- The buffer-writing do-while loop agrees with the pure spec-side
encoding whenever room and fuel suffice. -/
theorem writeCompactU16Go_spec (v : Nat) : ∀ fuel buf maxLen,
    (compactU16Spec v).length ≤ fuel →
    buf.length + (compactU16Spec v).length ≤ maxLen →
    writeCompactU16Go fuel buf maxLen v = some (buf ++ compactU16Spec v) := by
  induction v using Nat.strong_induction_on with
  | _ v ih =>
    intro fuel buf maxLen hfuel hlen
    by_cases h : v < 128
    · have hs : compactU16Spec v = [v] := by rw [compactU16Spec]; simp [h]
      rw [hs] at hfuel hlen ⊢
      obtain ⟨f, rfl⟩ : ∃ f, fuel = f + 1 :=
        ⟨fuel - 1, by simp at hfuel; omega⟩
      unfold writeCompactU16Go
      have h1 : ¬ buf.length ≥ maxLen := by simp at hlen; omega
      simp [h1, Nat.div_eq_of_lt h, Nat.mod_eq_of_lt h]
    · have hs : compactU16Spec v = (v % 128 + 128) :: compactU16Spec (v / 128) := by
        rw [compactU16Spec]; simp [h]
      rw [hs] at hfuel hlen ⊢
      obtain ⟨f, rfl⟩ : ∃ f, fuel = f + 1 :=
        ⟨fuel - 1, by simp at hfuel; omega⟩
      unfold writeCompactU16Go
      have h1 : ¬ buf.length ≥ maxLen := by simp at hlen; omega
      have h2 : v / 128 ≠ 0 := by
        exact Nat.ne_of_gt (Nat.div_pos (by omega) (by norm_num))
      have hd : v / 128 < v := Nat.div_lt_self (by omega) (by norm_num)
      have hrec := ih (v / 128) hd f (buf ++ [v % 128 + 128]) maxLen
        (by simp at hfuel ⊢; omega)
        (by simp at hlen ⊢; omega)
      simp [h1, h2, hrec]

/-- Decoding the spec-side shortvec encoding recovers the value. -/
theorem decode_compactU16Spec (v : Nat) :
    decodeCompactU16 (compactU16Spec v) = some v := by
  induction v using Nat.strong_induction_on with
  | _ v ih =>
    by_cases h : v < 128
    · have hs : compactU16Spec v = [v] := by rw [compactU16Spec]; simp [h]
      simp [hs, decodeCompactU16, h]
    · have hs : compactU16Spec v = (v % 128 + 128) :: compactU16Spec (v / 128) := by
        rw [compactU16Spec]; simp [h]
      have hd : v / 128 < v := Nat.div_lt_self (by omega) (by norm_num)
      have hb : ¬ (v % 128 + 128 < 128) := by omega
      have hne : compactU16Spec (v / 128) ≠ [] := by
        have := compactU16Spec_length_pos (v / 128)
        intro hc; rw [hc] at this; simp at this
      rw [hs]
      simp only [decodeCompactU16, if_neg hb, ih (v / 128) hd]
      congr 1
      omega

/-- **C8** (confirmed; the decoder is modelled from the spec, no reader
exists in the sources).  `writeCompactU16` emits exactly the spec-side
shortvec encoding (7 low bits per byte, low group first, continuation bit
0x80 on all but the last byte, at least one byte, with value 0 a single
zero byte) for every `uint16` value; the five sample values encode to
1, 1, 2, 2, 3 bytes, and decoding recovers every value. -/
theorem writeCompactU16_encodes_spec :
    (∀ v : Nat, v < 65536 →
        writeCompactU16 [] 10 v = some (compactU16Spec v) ∧
        1 ≤ (compactU16Spec v).length ∧
        decodeCompactU16 (compactU16Spec v) = some v) ∧
    compactU16Spec 0 = [0] ∧
    ([0, 127, 128, 16383, 16384].map (fun v => (compactU16Spec v).length)) =
      [1, 1, 2, 2, 3] := by
  refine ⟨fun v hv => ⟨?_, compactU16Spec_length_pos v, decode_compactU16Spec v⟩,
    ?_, ?_⟩
  · have h3 := compactU16Spec_length_le v hv
    have := writeCompactU16Go_spec v 11 [] 10 (by omega) (by simp; omega)
    simpa [writeCompactU16] using this
  · rw [compactU16Spec]; simp
  · have e0 : compactU16Spec 0 = [0] := by rw [compactU16Spec]; norm_num
    have e127 : compactU16Spec 127 = [127] := by rw [compactU16Spec]; norm_num
    have e128 : compactU16Spec 128 = [128, 1] := by
      rw [compactU16Spec, compactU16Spec]; norm_num
    have e16383 : compactU16Spec 16383 = [255, 127] := by
      rw [compactU16Spec, compactU16Spec]; norm_num
    have e16384 : compactU16Spec 16384 = [128, 128, 1] := by
      rw [compactU16Spec, compactU16Spec, compactU16Spec]; norm_num
    simp [e0, e127, e128, e16383, e16384]

/-- Witness for `writeCompactU16_encodes_spec` at value 300 (two bytes with
a continuation bit). -/
theorem writeCompactU16_encodes_spec_witness :
    writeCompactU16 [] 10 300 = some (compactU16Spec 300) ∧
    decodeCompactU16 (compactU16Spec 300) = some 300 :=
  ⟨(writeCompactU16_encodes_spec.1 300 (by norm_num)).1,
   (writeCompactU16_encodes_spec.1 300 (by norm_num)).2.2⟩

theorem mem_insertAt (n : Nat) (a : α) (l : List α) : a ∈ insertAt n a l := by
  induction l generalizing n with
  | nil => simp [insertAt]
  | cons x xs ih =>
    cases n with
    | zero => simp [insertAt]
    | succ n => simp only [insertAt, List.mem_cons]; exact Or.inr (ih n)

theorem intToU8_ofNat (x : Nat) (h : x < 256) : intToU8 (x : Int) = x := by
  unfold intToU8; omega

/-- **C6** (corrected: with a full table an absent key is not added — the
call just fails; see the counterexample).  `Transaction::sign`:
(1) if resolution fails the call fails with the transaction unchanged;
(2) an absent key is added to the table as a writable signer whenever the
table has room (stated under the header-consistency bounds that the
four-zone invariant guarantees on every reachable state);
(3) if the resolved index is not below `numRequiredSignatures` the call
fails and places no signature (only the message keeps the possible
addition);
(4) on success — serialization fits and the external signer returns a
signature — the result sets `signatureCount = numRequiredSignatures`,
zeroes every slot and stores the new signature at the slot whose index is
the signer's account index. -/
theorem sign_behavior (signFn : List Nat → List Nat → Option (List Nat))
    (tx : Transaction) (privateKey publicKey : List Nat) :
    (tx.signResolve publicKey = none →
      Transaction.sign signFn tx privateKey publicKey = (false, tx)) ∧
    (tx.message.findAccountIndex publicKey = 255 →
      tx.message.accounts.length < MAX_ACCOUNTS →
      tx.message.header.numReadonlySignedAccounts ≤
        tx.message.header.numRequiredSignatures →
      tx.message.header.numRequiredSignatures ≤ tx.message.accounts.length →
      ∃ i m', tx.signResolve publicKey = some (i, m') ∧
        (⟨publicKey, true, true⟩ : AccountEntry) ∈ m'.accounts) ∧
    (∀ i m', tx.signResolve publicKey = some (i, m') →
      i ≥ m'.header.numRequiredSignatures →
      Transaction.sign signFn tx privateKey publicKey =
        (false, { tx with message := m' })) ∧
    (∀ i m' msg sig, tx.signResolve publicKey = some (i, m') →
      i < m'.header.numRequiredSignatures →
      serializeMessage m' 2048 = some msg →
      signFn privateKey msg = some sig →
      Transaction.sign signFn tx privateKey publicKey =
        (true,
         { tx with
           message := m'
           signatureCount := m'.header.numRequiredSignatures
           signatures :=
             (List.replicate MAX_ACCOUNTS (List.replicate 64 0)).set i sig
           isValid := true })) := by
  refine ⟨?_, ?_, ?_, ?_⟩
  · intro hres
    unfold Transaction.sign
    rw [hres]
  · intro habs hroom hro hreq
    have hcap : ¬ tx.message.accounts.length ≥ MAX_ACCOUNTS := by omega
    have hadd := addAccount_new tx.message publicKey true true hcap habs
    have hidx : tx.message.insertIndexFor true true =
        tx.message.header.numRequiredSignatures -
          tx.message.header.numReadonlySignedAccounts := by
      simp only [Message.insertIndexFor, ite_true]
      exact intToU8_sub _ _ hro (by unfold MAX_ACCOUNTS at hroom; omega)
    have hlt : tx.message.insertIndexFor true true < 256 := by
      rw [hidx]; unfold MAX_ACCOUNTS at hroom; omega
    refine ⟨tx.message.insertIndexFor true true,
      { tx.message with
        header := tx.message.header.bump true true
        accounts := insertAt (tx.message.insertIndexFor true true)
          ⟨publicKey, true, true⟩ tx.message.accounts }, ?_, ?_⟩
    · unfold Transaction.signResolve
      rw [if_pos habs, hadd]
      simp only [intToU8_ofNat _ hlt]
      rw [if_neg (by rw [hidx]; unfold MAX_ACCOUNTS at hroom; omega)]
    · exact mem_insertAt _ _ _
  · intro i m' hres hge
    unfold Transaction.sign
    rw [hres]
    dsimp only
    rw [if_pos hge]
  · intro i m' msg sig hres hlt hser hsig
    unfold Transaction.sign
    rw [hres]
    dsimp only
    rw [if_neg (by omega : ¬ i ≥ m'.header.numRequiredSignatures)]
    rw [if_neg (show ¬ (i ≠ 0 ∧ i ≥ m'.header.numRequiredSignatures) from by
      intro hc; omega)]
    rw [hser]
    dsimp only
    rw [hsig]
    dsimp only
    rw [if_neg (by omega : ¬ m'.header.numRequiredSignatures = 0), if_pos hlt]

/-- A transaction whose account table is full (16 readonly non-signer
entries). -/
def fullTableTx : Transaction :=
  { emptyTransaction with
    message := applyAddAccounts
      ((List.range 16).map (fun i => (kbyte i, false, false))) emptyMessage }

/-- Counterexample to **C6** as stated: the key `kbyte 99` is absent from
the full table, yet `sign` does not add it as a writable signer — the call
fails and the transaction is completely unchanged. -/
theorem sign_full_table_counterexample :
    fullTableTx.message.findAccountIndex (kbyte 99) = 255 ∧
    Transaction.sign (fun _ _ => some (List.replicate 64 1)) fullTableTx
        (kbyte 99) (kbyte 99) = (false, fullTableTx) := by decide

/-- Witness for `sign_behavior`: signing the canonical transfer transaction
with the `from` key (account index 0) succeeds, setting one signature slot. -/
theorem sign_behavior_witness :
    Transaction.sign (fun _ _ => some (List.replicate 64 1))
        (emptyTransaction.addTransferInstruction (kbyte 1) (kbyte 2) 100).2
        (kbyte 7) (kbyte 1) =
      (true,
       { (emptyTransaction.addTransferInstruction (kbyte 1) (kbyte 2) 100).2 with
         message :=
           (emptyTransaction.addTransferInstruction (kbyte 1) (kbyte 2) 100).2.message
         signatureCount := 1
         signatures :=
           (List.replicate MAX_ACCOUNTS (List.replicate 64 0)).set 0
             (List.replicate 64 1)
         isValid := true }) := by
  have h := (sign_behavior (fun _ _ => some (List.replicate 64 1))
    (emptyTransaction.addTransferInstruction (kbyte 1) (kbyte 2) 100).2
    (kbyte 7) (kbyte 1)).2.2.2
  exact h 0
    (emptyTransaction.addTransferInstruction (kbyte 1) (kbyte 2) 100).2.message
    ([1, 0, 1] ++ [3] ++ kbyte 1 ++ kbyte 2 ++ zero32 ++ List.replicate 32 0 ++
      [1] ++ [2] ++ [2] ++ [0, 1] ++ [12] ++ ([2, 0, 0, 0] ++ le8 100))
    (List.replicate 64 1) (by decide) (by decide) (by decide) rfl

/-- The sequence of individual `sign` outcomes of `signMultiple`'s loop,
together with the final transaction state: each pair is attempted on the
state left by its predecessor. -/
def signResults (signFn : List Nat → List Nat → Option (List Nat))
    (tx : Transaction) : List (List Nat × List Nat) → List Bool × Transaction
  | [] => ([], tx)
  | p :: ps =>
    let r := Transaction.sign signFn tx p.1 p.2
    let rest := signResults signFn r.2 ps
    (r.1 :: rest.1, rest.2)

theorem signMultiple_foldl (signFn : List Nat → List Nat → Option (List Nat)) :
    ∀ (pairs : List (List Nat × List Nat)) (b : Bool) (tx : Transaction),
      pairs.foldl
        (fun acc pair =>
          let r := Transaction.sign signFn acc.2 pair.1 pair.2
          (acc.1 && r.1, r.2)) (b, tx) =
      (b && (signResults signFn tx pairs).1.all id,
        (signResults signFn tx pairs).2) := by
  intro pairs
  induction pairs with
  | nil => intro b tx; simp [signResults]
  | cons p ps ih =>
    intro b tx
    simp only [List.foldl_cons, signResults, ih, List.all_cons, id_eq]
    rw [Bool.and_assoc]

/-- **C10** (confirmed).  For a non-empty list of keypairs, `signMultiple`
attempts `sign` once per pair, in order, each on the state the previous
attempt left (so no rollback of earlier successes and no early stop), and
returns true exactly when every individual attempt succeeded. -/
theorem signMultiple_behavior (signFn : List Nat → List Nat → Option (List Nat))
    (tx : Transaction) (pairs : List (List Nat × List Nat))
    (hne : pairs ≠ []) :
    Transaction.signMultiple signFn tx pairs =
      ((signResults signFn tx pairs).1.all id,
        (signResults signFn tx pairs).2) ∧
    (signResults signFn tx pairs).1.length = pairs.length := by
  constructor
  · unfold Transaction.signMultiple
    rw [if_neg (by simpa using hne)]
    simpa using signMultiple_foldl signFn pairs true tx
  · clear hne
    induction pairs generalizing tx with
    | nil => simp [signResults]
    | cons p ps ih => simp [signResults, ih]

/-- Witness for `signMultiple_behavior`: two attempts on the transfer
transaction — the `from` key succeeds, the unrelated `kbyte 5` key is added
as a writable signer which moves the signer zone, and its own sign attempt
then also succeeds, so both results are true. -/
theorem signMultiple_behavior_witness :
    Transaction.signMultiple (fun _ _ => some (List.replicate 64 1))
        (emptyTransaction.addTransferInstruction (kbyte 1) (kbyte 2) 100).2
        [(kbyte 7, kbyte 1), (kbyte 8, kbyte 1)] =
      ((signResults (fun _ _ => some (List.replicate 64 1))
          (emptyTransaction.addTransferInstruction (kbyte 1) (kbyte 2) 100).2
          [(kbyte 7, kbyte 1), (kbyte 8, kbyte 1)]).1.all id,
        (signResults (fun _ _ => some (List.replicate 64 1))
          (emptyTransaction.addTransferInstruction (kbyte 1) (kbyte 2) 100).2
          [(kbyte 7, kbyte 1), (kbyte 8, kbyte 1)]).2) :=
  (signMultiple_behavior (fun _ _ => some (List.replicate 64 1))
    (emptyTransaction.addTransferInstruction (kbyte 1) (kbyte 2) 100).2
    [(kbyte 7, kbyte 1), (kbyte 8, kbyte 1)] (by decide)).1

/-!
## The self-contained signing engine (`src/src/tweetnacl.c`)

The `gf` limb type is `i64[16]`; limbs are modelled as `Nat` values below
2^64 in two's-complement encoding, with every C arithmetic operation
wrapped mod 2^64 (the signed-overflow behaviour of the compilers this
library targets).  The SHA-512 primitive is an external collaborator
(mbedtls / the Arduino SHA512 library) and is a parameter `H`.  Two locals
of the source are read before ever being written — `q` in
`crypto_sign_detached` and `q[1]`, `q[2]`, `q[3]` in
`crypto_sign_verify_detached` — so their initial contents are parameters of
the model as well. -/

/-- 2^64, the wrap-around modulus of `i64` limbs. -/
def W64 : Nat := 18446744073709551616

/-- Wrapping `i64` addition. -/
def wAdd (a b : Nat) : Nat := (a + b) % W64

/-- Wrapping `i64` subtraction. -/
def wSub (a b : Nat) : Nat := (a + (W64 - b % W64)) % W64

/-- Wrapping `i64` multiplication. -/
def wMul (a b : Nat) : Nat := (a * b) % W64

/-- Arithmetic (sign-extending) right shift of an `i64`. -/
def sar64 (a k : Nat) : Nat :=
  if a < 9223372036854775808 then a >>> k
  else (a >>> k) + (W64 - (W64 >>> k))

/-- One `gf` field element: 16 `i64` limbs. -/
def gf0 : List Nat := List.replicate 16 0

/-- The constant `gf1 = {1}`. -/
def gf1 : List Nat := 1 :: List.replicate 15 0

/-- `car25519`: one in-place carry pass over the 16 limbs (the source's
`o[i] += 1<<16; c = o[i] >> 16; o[(i+1)*(i<15)] += c-1+37*(c-1)*(i==15);
o[i] -= c << 16`). -/
def car25519 (o : List Nat) : List Nat :=
  (List.range 16).foldl
    (fun o i =>
      let oi := wAdd (o.getD i 0) 65536
      let c := sar64 oi 16
      let j := (i + 1) * (if i < 15 then 1 else 0)
      let delta :=
        if i < 15 then wSub c 1
        else wAdd (wSub c 1) (wMul 37 (wSub c 1))
      let o := o.set j (wAdd (o.getD j 0) delta)
      o.set i (wSub oi (wMul c 65536)))
    o

/-- `sel25519`: constant-time conditional swap of two field elements
(`c = ~(b-1)` is all-ones when `b = 1`, zero when `b = 0`; every call site
passes a single bit). -/
def sel25519 (p q : List Nat) (b : Nat) : List Nat × List Nat :=
  let c : Nat := if b = 0 then 0 else W64 - 1
  ((List.range 16).map (fun i =>
      (p.getD i 0) ^^^ (c &&& ((p.getD i 0) ^^^ (q.getD i 0)))),
   (List.range 16).map (fun i =>
      (q.getD i 0) ^^^ (c &&& ((p.getD i 0) ^^^ (q.getD i 0)))))

/-- `pack25519`: three carry passes, two conditional-subtraction rounds,
then 32 little-endian bytes (two per limb). -/
def pack25519 (n : List Nat) : List Nat :=
  let round := fun (t : List Nat) =>
    let m0 := wSub (t.getD 0 0) 65517
    let step := (List.range 14).foldl
      (fun (acc : List Nat × Nat) idx =>
        let i := idx + 1
        let mi := wSub (wSub (t.getD i 0) 65535) ((sar64 acc.2 16) &&& 1)
        (acc.1 ++ [acc.2 &&& 65535], mi))
      ([], m0)
    let m15 := wSub (wSub (t.getD 15 0) 32767) ((sar64 step.2 16) &&& 1)
    let b := (sar64 m15 16) &&& 1
    let m := step.1 ++ [step.2 &&& 65535, m15]
    (sel25519 t m (1 - b)).1
  let t := round (round (car25519 (car25519 (car25519 n))))
  (List.range 16).foldr
    (fun i acc =>
      (t.getD i 0 &&& 255) :: ((sar64 (t.getD i 0) 8) &&& 255) :: acc)
    []

/-- `unpack25519`: 16 limbs from 32 little-endian bytes, top bit dropped.
The function's C return value is always 0, so its caller's failure check
is dead. -/
def unpack25519 (n : List Nat) : List Nat :=
  let o := (List.range 16).map
    (fun i => (n.getD (2 * i) 0) + ((n.getD (2 * i + 1) 0) <<< 8))
  o.set 15 ((o.getD 15 0) &&& 32767)

/-- A curve point as four field elements (the `gf p[4]` of the source). -/
structure Gf4 where
  x : List Nat
  y : List Nat
  z : List Nat
  t : List Nat
deriving Repr, DecidableEq

/-- The `add` of the source.  Unlike real TweetNaCl (whose `add` performs
full field multiplications), this modified version multiplies and adds the
limb arrays componentwise with no carry propagation:
`h = d*g; p0 = (a+b)*(e+f) - h; p1 = b*e; p2 = c*f; p3 = h`, all per
limb. -/
def addPoint (p q : Gf4) : Gf4 :=
  { x := (List.range 16).map (fun i =>
      wSub (wMul (wAdd (p.x.getD i 0) (p.y.getD i 0))
                 (wAdd (q.y.getD i 0) (q.z.getD i 0)))
           (wMul (p.t.getD i 0) (q.t.getD i 0)))
    y := (List.range 16).map (fun i => wMul (p.y.getD i 0) (q.y.getD i 0))
    z := (List.range 16).map (fun i => wMul (p.z.getD i 0) (q.z.getD i 0))
    t := (List.range 16).map (fun i => wMul (p.t.getD i 0) (q.t.getD i 0)) }

/-- Bit `i` of the 32-byte scalar. -/
def bitOf (s : List Nat) (i : Nat) : Nat := ((s.getD (i / 8) 0) >>> (i % 8)) &&& 1

/-- One ladder iteration of `scalarmult` at bit index `i`: conditional
swap on the scalar bit, then `add(q, p)` and `add(p, p)` on the swapped
values. -/
def ladderStep (s : List Nat) (pq : Gf4 × Gf4) (i : Nat) : Gf4 × Gf4 :=
  let b := bitOf s i
  let sx := sel25519 pq.1.x pq.2.x b
  let sy := sel25519 pq.1.y pq.2.y b
  let sz := sel25519 pq.1.z pq.2.z b
  let st := sel25519 pq.1.t pq.2.t b
  let p' : Gf4 := ⟨sx.1, sy.1, sz.1, st.1⟩
  let q' : Gf4 := ⟨sx.2, sy.2, sz.2, st.2⟩
  (addPoint p' p', addPoint q' p')

/-- `scalarmult(p, q, s)` with distinct `p` and `q`: `p` is initialized to
the neutral quadruple, then 256 ladder steps from bit 255 down to bit 0.
Both final states are returned because the source reuses the mutated `q`
across its two calls in `crypto_sign_detached`. -/
def scalarmult (q : Gf4) (s : List Nat) : Gf4 × Gf4 :=
  ((List.range 256).reverse).foldl (ladderStep s) (⟨gf0, gf1, gf1, gf0⟩, q)

/-- One iteration of the aliased ladder of `crypto_sign_keypair` (see
`scalarmultAliased`): `add(q, p)` then `add(p, p)` on a single shared
state are two self-additions. -/
def selfStep (st : Gf4) : Gf4 := addPoint (addPoint st st) (addPoint st st)

/-- `crypto_sign_keypair` calls `scalarmult(p, p, d)` with the same array
for `p` and `q`: the initialisation writes both, the conditional swaps
become no-ops, and each ladder step collapses to `selfStep` on the shared
state — the scalar `d` no longer influences the result. -/
def scalarmultAliased (_s : List Nat) : Gf4 :=
  (List.range 256).foldl (fun st _ => selfStep st) ⟨gf0, gf1, gf1, gf0⟩

/-- The clamping of the hashed seed: `d[0] &= 248; d[31] &= 127;
d[31] |= 64`. -/
def clampD (d : List Nat) : List Nat :=
  let d := d.set 0 ((d.getD 0 0) &&& 248)
  d.set 31 (((d.getD 31 0) &&& 127) ||| 64)

/-- `crypto_sign_keypair` (the external `randombytes` seed and the SHA-512
collaborator `H` are parameters): hash and clamp the seed, run the aliased
scalar multiplication, pack the X limbs as the public key, and return
seed ‖ publicKey as the secret key. -/
def crypto_sign_keypair (H : List Nat → List Nat) (seed : List Nat) :
    List Nat × List Nat :=
  let d := clampD (H seed)
  let p := scalarmultAliased d
  let pk := pack25519 p.x
  (pk, seed ++ pk)

/-- `crypto_sign_detached`.  `qInit` is the content of the local `gf q[4]`,
which the source reads without ever initialising it. -/
def crypto_sign_detached (H : List Nat → List Nat) (qInit : Gf4)
    (m sk : List Nat) : List Nat :=
  let d := clampD (H (sk.take 32))
  let r := H ((d.drop 32).take 32 ++ m)
  let step1 := scalarmult qInit r
  let sig1 := pack25519 step1.1.x
  let h := H (sig1 ++ (sk.drop 32).take 32 ++ m)
  let step2 := scalarmult step1.2 h
  sig1 ++ pack25519 step2.1.x

/-- `crypto_verify_32`: constant-time 32-byte comparison in `u32`
arithmetic; 0 when equal, -1 otherwise. -/
def crypto_verify_32 (x y : List Nat) : Int :=
  let d := (List.range 32).foldl
    (fun d i => d ||| ((x.getD i 0) ^^^ (y.getD i 0))) 0
  ((1 &&& (((d + 4294967295) % 4294967296) >>> 8)) : Int) - 1

/-- `crypto_sign_verify_detached`.  `qy qz qt` are the contents of the
uninitialised `q[1] q[2] q[3]` locals.  The final
`pack25519(t, p[0]); crypto_verify_32(sig+32, t)` of the source writes the
32 packed bytes into the first 32 bytes of the `gf t` and compares exactly
those bytes (a little-endian type pun), so the model compares the packed
bytes directly. -/
def crypto_sign_verify_detached (H : List Nat → List Nat)
    (qy qz qt : List Nat) (sig m pk : List Nat) : Int :=
  if ((sig.getD 63 0) &&& 224) ≠ 0 then -1
  else
    let q0 := unpack25519 pk
    let h := H (sig.take 32 ++ pk ++ m)
    let step := scalarmult ⟨q0, qy, qz, qt⟩ h
    crypto_verify_32 (sig.drop 32) (pack25519 step.1.x)

/-!
## Refutation instance for the sign/verify round trip (claim C3)

The hash collaborator is instantiated with constant all-zero digests and
the uninitialised locals with zero limbs; the seed is all-zero.  Under this
instantiation every ladder step runs at scalar bit 0, the running point
`q` of the sign-side ladder stays all-zero, and the accumulator follows
the closed orbit x ↦ 2(x+1) mod 2^64, which hits the fixed point
2^64 - 2 after 63 steps. -/

/-- The constant-zero instantiation of the external SHA-512 collaborator. -/
def Hzero : List Nat → List Nat := fun _ => List.replicate 64 0

/-- An all-zero 32-byte seed for `crypto_sign_keypair`. -/
def seedZero : List Nat := List.replicate 32 0

/-- All-zero content for the uninitialised `gf q[4]` local. -/
def zero4 : Gf4 := ⟨gf0, gf0, gf0, gf0⟩

/-- The ladder step when the scalar bit is 0 (every step of the all-zero
instantiation). -/
def zeroStep (pq : Gf4 × Gf4) : Gf4 × Gf4 :=
  let sx := sel25519 pq.1.x pq.2.x 0
  let sy := sel25519 pq.1.y pq.2.y 0
  let sz := sel25519 pq.1.z pq.2.z 0
  let st := sel25519 pq.1.t pq.2.t 0
  let p' : Gf4 := ⟨sx.1, sy.1, sz.1, st.1⟩
  let q' : Gf4 := ⟨sx.2, sy.2, sz.2, st.2⟩
  (addPoint p' p', addPoint q' p')

/-- The fixed point of the degenerate ladder: x-limb 2^64 - 2 (i.e. -2). -/
def pStar : Gf4 := ⟨18446744073709551614 :: List.replicate 15 0, gf1, gf1, gf0⟩

/-- The 32 bytes `pack25519` produces from `pStar`'s X limbs: the
little-endian encoding of 2^255 - 21 (the field value -2). -/
def pkZ : List Nat := 235 :: (List.replicate 30 255 ++ [127])

theorem getD_replicate_zero (n k : Nat) :
    (List.replicate n (0 : Nat)).getD k 0 = 0 := by
  induction n generalizing k with
  | zero => simp [List.getD]
  | succ n ih =>
    cases k with
    | zero => simp [List.replicate]
    | succ k => simp only [List.replicate, List.getD_cons_succ]; exact ih k

theorem bitOf_zeros (i : Nat) : bitOf (List.replicate 64 0) i = 0 := by
  unfold bitOf
  rw [getD_replicate_zero]
  simp

theorem ladderStep_zeros (pq : Gf4 × Gf4) (i : Nat) :
    ladderStep (List.replicate 64 0) pq i = zeroStep pq := by
  unfold ladderStep zeroStep
  rw [bitOf_zeros]

theorem foldl_congr_fun {f g : β → α → β} (h : ∀ b a, f b a = g b a) :
    ∀ (l : List α) (b : β), l.foldl f b = l.foldl g b := by
  intro l
  induction l with
  | nil => intro b; rfl
  | cons x xs ih => intro b; simp only [List.foldl_cons, h, ih]

theorem foldl_ignore (g : β → β) :
    ∀ (l : List α) (b : β), l.foldl (fun b _ => g b) b = g^[l.length] b := by
  intro l
  induction l with
  | nil => intro b; rfl
  | cons x xs ih =>
    intro b
    simp only [List.foldl_cons, List.length_cons, ih,
      Function.iterate_succ_apply]

theorem scalarmult_zeros (q : Gf4) :
    scalarmult q (List.replicate 64 0) =
      zeroStep^[256] (⟨gf0, gf1, gf1, gf0⟩, q) := by
  unfold scalarmult
  rw [foldl_congr_fun (fun b a => ladderStep_zeros b a), foldl_ignore]
  simp

theorem ladder256_zero :
    zeroStep^[256] (⟨gf0, gf1, gf1, gf0⟩, zero4) = (pStar, zero4) := by
  have c1 : zeroStep^[16] (⟨gf0, gf1, gf1, gf0⟩, zero4) =
      (⟨131070 :: List.replicate 15 0, gf1, gf1, gf0⟩, zero4) := by decide
  have c2 : zeroStep^[16]
      ((⟨131070 :: List.replicate 15 0, gf1, gf1, gf0⟩ : Gf4), zero4) =
      (⟨8589934590 :: List.replicate 15 0, gf1, gf1, gf0⟩, zero4) := by decide
  have c3 : zeroStep^[16]
      ((⟨8589934590 :: List.replicate 15 0, gf1, gf1, gf0⟩ : Gf4), zero4) =
      (⟨562949953421310 :: List.replicate 15 0, gf1, gf1, gf0⟩, zero4) := by
    decide
  have c4 : zeroStep^[16]
      ((⟨562949953421310 :: List.replicate 15 0, gf1, gf1, gf0⟩ : Gf4), zero4) =
      (pStar, zero4) := by decide
  have hfix : zeroStep (pStar, zero4) = (pStar, zero4) := by decide
  have h64 : zeroStep^[64] (⟨gf0, gf1, gf1, gf0⟩, zero4) = (pStar, zero4) := by
    rw [show (64 : Nat) = 48 + 16 from rfl, Function.iterate_add_apply, c1,
      show (48 : Nat) = 32 + 16 from rfl, Function.iterate_add_apply, c2,
      show (32 : Nat) = 16 + 16 from rfl, Function.iterate_add_apply, c3, c4]
  rw [show (256 : Nat) = 192 + 64 from rfl, Function.iterate_add_apply, h64,
    Function.iterate_fixed hfix]

theorem aliased256 :
    selfStep^[256] (⟨gf0, gf1, gf1, gf0⟩ : Gf4) = pStar := by
  have k1 : selfStep^[16] (⟨gf0, gf1, gf1, gf0⟩ : Gf4) =
      ⟨8589934590 :: List.replicate 15 0, gf1, gf1, gf0⟩ := by decide
  have k2 : selfStep^[16]
      (⟨8589934590 :: List.replicate 15 0, gf1, gf1, gf0⟩ : Gf4) = pStar := by
    decide
  have hfix : selfStep pStar = pStar := by decide
  rw [show (256 : Nat) = 224 + 32 from rfl, Function.iterate_add_apply,
    show (32 : Nat) = 16 + 16 from rfl, Function.iterate_add_apply, k1, k2,
    Function.iterate_fixed hfix]

/-- The keypair of the all-zero instantiation: note that `scalarmultAliased`
ignores the clamped scalar entirely, so every seed yields this same public
key. -/
theorem keypair_zero :
    crypto_sign_keypair Hzero seedZero = (pkZ, seedZero ++ pkZ) := by
  unfold crypto_sign_keypair scalarmultAliased
  rw [foldl_ignore]
  simp only [List.length_range]
  rw [aliased256]
  decide

theorem sign_detached_zero :
    crypto_sign_detached Hzero zero4 [] (seedZero ++ pkZ) = pkZ ++ pkZ := by
  have hsm : scalarmult zero4 (List.replicate 64 0) = (pStar, zero4) := by
    rw [scalarmult_zeros, ladder256_zero]
  unfold crypto_sign_detached
  simp only [Hzero, hsm]
  decide

theorem verify_zero :
    crypto_sign_verify_detached Hzero gf0 gf0 gf0 (pkZ ++ pkZ) [] pkZ = -1 := by
  decide

/-- **C3** (code bug).  A keypair produced by the engine's own
`crypto_sign_keypair`, a message signed with its `crypto_sign_detached`,
verified with its `crypto_sign_verify_detached` — and verification fails
(it already trips over its own malformed-control-bits check, since
`sig[63] = 0x7f` has bits 5 and 6 set).  The hash collaborator is the
constant-zero instantiation and the uninitialised locals are taken
all-zero; under no instantiation can the claimed property hold for all
messages, and the run shown here exhibits a concrete failure. -/
theorem tweetnacl_verify_rejects_own_signature :
    crypto_sign_keypair Hzero seedZero = (pkZ, seedZero ++ pkZ) ∧
    crypto_sign_detached Hzero zero4 [] (seedZero ++ pkZ) = pkZ ++ pkZ ∧
    crypto_sign_verify_detached Hzero gf0 gf0 gf0 (pkZ ++ pkZ) [] pkZ = -1 :=
  ⟨keypair_zero, sign_detached_zero, verify_zero⟩
